import Mathlib

/-!
Verification of the participation-tracker core (Rust sources `back.rs`,
`model.rs`) against its natural-language specification.

The embedding follows the source closely:

* timestamps are modelled as `Nat` (seconds); `CURRENT_TIMESTAMP` becomes an
  explicit `now : Nat` argument to every operation that stamps a row;
* database ids (`db_id`, i32 columns) are modelled as `Int`; generated
  identity columns are modelled by a `next_id` counter in the database state;
* each SQL statement is translated to a pure function on an explicit database
  state; a statement that can panic in Rust (or raise in Postgres) returns
  `Except`;
* the thread-local random number generator of the Fair Picker is modelled as
  an externally supplied shuffle oracle, one oracle per `next` call.
-/

namespace Participation

/-- Row of the `statuses` table (`back.rs`, `set_up_tables`). -/
structure Status where
  db_id : Int
  name : String
deriving Repr, DecidableEq

/-- Row of the `categories` table / `model.rs` `Category`. -/
structure Category where
  db_id : Int
  name : String
  first_entered : Nat
deriving Repr, DecidableEq

/-- Row of the `students` table (`back.rs`, `set_up_tables`); also the shape
behind `model.rs` `Student` (which omits `username`). -/
structure Student where
  db_id : Int
  ub_id : String
  name : String
  username : String
  first_entered : Nat
  status_id : Int
  last_updated : Nat
deriving Repr, DecidableEq

/-- Row of the `events` table. -/
structure Event where
  db_id : Int
  student_id : Int
  category_id : Int
  first_entered : Nat
  satisfactory : Bool
deriving Repr, DecidableEq

/-- Row of the `summary` table. -/
structure SummaryEntry where
  db_id : Int
  student_id : Int
  points : Nat
deriving Repr, DecidableEq

/-- The database state the core operates on.  `summary_last_updated` is the
singleton `metadata` row's column of the same name; `next_id` models the
generated identity columns. -/
structure DB where
  statuses : List Status
  categories : List Category
  students : List Student
  events : List Event
  summary : List SummaryEntry
  summary_last_updated : Nat
  next_id : Int
deriving Repr, DecidableEq

/-- Errors raised by the persistence layer.  `notNullViolation` is the
Postgres error raised when an `INSERT` supplies `NULL` for a `NOT NULL`
column; `storeFailure` stands for any other store failure injected by an
error oracle. -/
inductive PgError where
  | notNullViolation
  | storeFailure (code : Nat)
deriving Repr, DecidableEq

/-- `model.rs` `Roster`: three independent vectors. -/
structure Roster where
  ub_ids : List String
  names : List String
  usernames : List String
deriving Repr, DecidableEq

/-- One step of `model.rs` `RosterIterator::next` at position `pos`.
The guard checks `pos` against all three lengths; inside the guarded branch
the source calls `.get(cur_pos).unwrap()` three times, so an out-of-range
`get` is modelled as the `.error` (panic) branch. -/
def rosterNext (r : Roster) (pos : Nat) :
    Except String (Option ((String × String × String) × Nat)) :=
  if pos ≥ r.ub_ids.length ∨ pos ≥ r.names.length ∨ pos ≥ r.usernames.length then
    .ok none
  else
    match r.ub_ids.get? pos, r.names.get? pos, r.usernames.get? pos with
    | some a, some b, some c => .ok (some ((a, b, c), pos + 1))
    | _, _, _ => .error "called Option::unwrap() on a None value"

/-- Length of the shortest of the three roster vectors: the number of items
the iterator yields before returning `none`. -/
def rosterMinLen (r : Roster) : Nat :=
  min (min r.ub_ids.length r.names.length) r.usernames.length

/-- Driving `rosterNext` to exhaustion from position `pos`, collecting the
yielded items (the semantics of `for x in roster.iter()`). -/
def rosterCollect (r : Roster) (pos : Nat) :
    Except String (List (String × String × String)) :=
  if h : pos ≥ r.ub_ids.length ∨ pos ≥ r.names.length ∨ pos ≥ r.usernames.length then
    .ok []
  else
    match r.ub_ids.get? pos, r.names.get? pos, r.usernames.get? pos with
    | some a, some b, some c =>
        match rosterCollect r (pos + 1) with
        | .ok rest => .ok ((a, b, c) :: rest)
        | .error m => .error m
    | _, _, _ => .error "called Option::unwrap() on a None value"
termination_by rosterMinLen r - pos
decreasing_by
  simp only [not_or, not_le] at h
  have : pos < rosterMinLen r := by
    unfold rosterMinLen
    omega
  omega

/-- Element-wise pairing of three lists, stopping at the shortest. -/
def zip3 : List α → List β → List γ → List (α × β × γ)
  | a :: as, b :: bs, c :: cs => (a, b, c) :: zip3 as bs cs
  | _, _, _ => []

theorem zip3_length (as : List α) (bs : List β) (cs : List γ) :
    (zip3 as bs cs).length = min (min as.length bs.length) cs.length := by
  induction as generalizing bs cs with
  | nil => simp [zip3]
  | cons a as ih =>
    cases bs with
    | nil => simp [zip3]
    | cons b bs =>
      cases cs with
      | nil => simp [zip3]
      | cons c cs =>
        simp only [zip3, List.length_cons, ih]
        omega

/-- Unfolding `rosterCollect` at an exhausted position. -/
theorem rosterCollect_stop (r : Roster) (pos : Nat)
    (h : pos ≥ r.ub_ids.length ∨ pos ≥ r.names.length ∨ pos ≥ r.usernames.length) :
    rosterCollect r pos = .ok [] := by
  rw [rosterCollect, dif_pos h]

/-- Unfolding `rosterCollect` at a position where all three vectors still
have an element. -/
theorem rosterCollect_step (r : Roster) (pos : Nat) (a b c : String)
    (h : ¬(pos ≥ r.ub_ids.length ∨ pos ≥ r.names.length ∨ pos ≥ r.usernames.length))
    (ha : r.ub_ids.get? pos = some a) (hb : r.names.get? pos = some b)
    (hc : r.usernames.get? pos = some c) :
    rosterCollect r pos =
      match rosterCollect r (pos + 1) with
      | .ok rest => .ok ((a, b, c) :: rest)
      | .error m => .error m := by
  rw [rosterCollect, dif_neg h, ha, hb, hc]

/-- Shifting the iterator by one position is the same as dropping the heads
of all three vectors. -/
theorem rosterCollect_shift (a b c : String)
    (as bs cs : List String) (pos : Nat) :
    rosterCollect ⟨a :: as, b :: bs, c :: cs⟩ (pos + 1) =
      rosterCollect ⟨as, bs, cs⟩ pos := by
  generalize hm : rosterMinLen ⟨as, bs, cs⟩ - pos = n
  induction n generalizing pos with
  | zero =>
    have hp : pos ≥ as.length ∨ pos ≥ bs.length ∨ pos ≥ cs.length := by
      unfold rosterMinLen at hm
      simp only at hm
      omega
    have hp1 : pos + 1 ≥ (a :: as).length ∨ pos + 1 ≥ (b :: bs).length ∨
        pos + 1 ≥ (c :: cs).length := by
      simp only [List.length_cons]
      omega
    rw [rosterCollect_stop ⟨a :: as, b :: bs, c :: cs⟩ (pos + 1) hp1,
      rosterCollect_stop ⟨as, bs, cs⟩ pos hp]
  | succ n ih =>
    have hlt : pos < rosterMinLen ⟨as, bs, cs⟩ := by omega
    have hp : ¬(pos ≥ as.length ∨ pos ≥ bs.length ∨ pos ≥ cs.length) := by
      unfold rosterMinLen at hlt
      simp only at hlt
      omega
    have hp1 : ¬(pos + 1 ≥ (a :: as).length ∨ pos + 1 ≥ (b :: bs).length ∨
        pos + 1 ≥ (c :: cs).length) := by
      simp only [List.length_cons]
      omega
    simp only [not_or, not_le] at hp
    obtain ⟨y, hy⟩ : ∃ y, bs.get? pos = some y :=
      ⟨bs.get ⟨pos, by omega⟩, List.get?_eq_get (by omega)⟩
    obtain ⟨z, hz⟩ : ∃ z, cs.get? pos = some z :=
      ⟨cs.get ⟨pos, by omega⟩, List.get?_eq_get (by omega)⟩
    obtain ⟨x', hx'⟩ : ∃ x, as.get? pos = some x :=
      ⟨as.get ⟨pos, by omega⟩, List.get?_eq_get (by omega)⟩
    rw [rosterCollect_step ⟨a :: as, b :: bs, c :: cs⟩ (pos + 1) x' y z hp1
        (by simpa using hx') (by simpa using hy) (by simpa using hz),
      rosterCollect_step ⟨as, bs, cs⟩ pos x' y z (by simp only [not_or, not_le]; omega)
        hx' hy hz,
      ih (pos + 1) (by omega)]

/-- The iterator run from position 0 yields exactly the element-wise zip of
the three vectors, and in particular never panics. -/
theorem rosterCollect_ok (r : Roster) :
    rosterCollect r 0 = .ok (zip3 r.ub_ids r.names r.usernames) := by
  obtain ⟨as, bs, cs⟩ := r
  induction as generalizing bs cs with
  | nil =>
    rw [rosterCollect_stop _ _ (by simp)]
    simp [zip3]
  | cons a as ih =>
    cases bs with
    | nil =>
      rw [rosterCollect_stop _ _ (by simp)]
      simp [zip3]
    | cons b bs =>
      cases cs with
      | nil =>
        rw [rosterCollect_stop _ _ (by simp)]
        simp [zip3]
      | cons c cs =>
        rw [rosterCollect_step ⟨a :: as, b :: bs, c :: cs⟩ 0 a b c
            (by simp only [not_or, not_le, List.length_cons]; omega) rfl rfl rfl,
          rosterCollect_shift, ih]
        rfl

/-- C10: a `Roster` built from three vectors of possibly unequal lengths
iterates to exactly `min (|ub_ids|, |names|, |usernames|)` tuples pairing the
three vectors element-wise in order, and no call to the iterator ever
panics (the `.error` branch modelling `unwrap` on `None` is unreachable). -/
theorem roster_iteration_zips (ub_ids names usernames : List String) :
    rosterCollect ⟨ub_ids, names, usernames⟩ 0 =
      .ok (zip3 ub_ids names usernames) ∧
    (zip3 ub_ids names usernames).length =
      min (min ub_ids.length names.length) usernames.length ∧
    ∀ pos, ∃ v, rosterNext ⟨ub_ids, names, usernames⟩ pos = .ok v := by
  refine ⟨rosterCollect_ok _, zip3_length _ _ _, fun pos => ?_⟩
  unfold rosterNext
  by_cases h : pos ≥ ub_ids.length ∨ pos ≥ names.length ∨ pos ≥ usernames.length
  · exact ⟨none, by rw [if_pos h]⟩
  · have hp := h
    simp only [not_or, not_le] at hp
    obtain ⟨x, hx⟩ : ∃ x, ub_ids.get? pos = some x :=
      ⟨ub_ids.get ⟨pos, by omega⟩, List.get?_eq_get (by omega)⟩
    obtain ⟨y, hy⟩ : ∃ y, names.get? pos = some y :=
      ⟨names.get ⟨pos, by omega⟩, List.get?_eq_get (by omega)⟩
    obtain ⟨z, hz⟩ : ∃ z, usernames.get? pos = some z :=
      ⟨usernames.get ⟨pos, by omega⟩, List.get?_eq_get (by omega)⟩
    refine ⟨some ((x, y, z), pos + 1), ?_⟩
    rw [if_neg h]
    simp only [hx, hy, hz]

/-- Failure outcomes of the Fair Picker.  `emptyPool` is the explicit error
the spec calls `EmptyPoolError`; the source never produces it — both failure
sites in `StudentPicker::next` are `panic!`, modelled by `panic`. -/
inductive PickError where
  | emptyPool
  | panic (msg : String)
deriving Repr, DecidableEq

/-- `back.rs` `StudentPicker`: the student pool, the shuffled index bag and
the cursor.  The thread-local rng is not part of the state; each `next` call
receives the shuffle it would perform as an oracle argument. -/
structure StudentPicker where
  students : List Student
  shuffled_indices : List Nat
  cur_ind : Nat
deriving Repr, DecidableEq

/-- `StudentPicker::new`. -/
def StudentPicker.new (students : List Student) : StudentPicker :=
  { students := students
    shuffled_indices := List.range students.length
    cur_ind := 0 }

/-- `StudentPicker::next` (`impl Iterator for StudentPicker`).  `σ` is the
permutation the rng produces if this call reshuffles.  The Rust `next`
always returns `Some`, so the `Option` layer is dropped; the two `panic!`
sites become the `.error (.panic _)` branches. -/
def StudentPicker.next (σ : List Nat → List Nat) (p : StudentPicker) :
    Except PickError (Student × StudentPicker) :=
  let c0 := if p.cur_ind = p.shuffled_indices.length then 0 else p.cur_ind
  let si := if c0 = 0 then σ p.shuffled_indices else p.shuffled_indices
  match si.get? c0 with
  | none => .error (.panic "Could not get next index")
  | some r =>
    match p.students.get? r with
    | none => .error (.panic "Could not get next student")
    | some s => .ok (s, { p with shuffled_indices := si, cur_ind := c0 + 1 })

/-- Repeated draws: one shuffle oracle per call, outputs collected in
order. -/
def StudentPicker.nextMany :
    List (List Nat → List Nat) → StudentPicker →
    Except PickError (List Student × StudentPicker)
  | [], p => .ok ([], p)
  | σ :: σs, p =>
    match StudentPicker.next σ p with
    | .error e => .error e
    | .ok (s, p1) =>
      match StudentPicker.nextMany σs p1 with
      | .error e => .error e
      | .ok (out, p2) => .ok (s :: out, p2)

/-- Placeholder row used as the `getD` default; the proofs show it is never
actually read. -/
def defaultStudent : Student :=
  { db_id := 0, ub_id := "", name := "", username := "",
    first_entered := 0, status_id := 0, last_updated := 0 }

/-- A picker state at the start of a shuffle pass over `students`: a fresh
picker, or one that has just consumed a whole bag. -/
def PassStart (students : List Student) (p : StudentPicker) : Prop :=
  p.students = students ∧
  p.shuffled_indices.Perm (List.range students.length) ∧
  (p.cur_ind = 0 ∨ p.cur_ind = p.shuffled_indices.length)

theorem map_getD_range (l : List α) (d : α) :
    (List.range l.length).map (fun i => l.getD i d) = l := by
  induction l with
  | nil => simp
  | cons a as ih =>
    rw [List.length_cons, List.range_succ_eq_map]
    simp only [List.map_cons, List.getD_cons_zero, List.map_map]
    have hcomp : ((fun i => (a :: as).getD i d) ∘ Nat.succ) =
        fun i => as.getD i d := by
      funext i
      simp [Function.comp, List.getD_cons_succ]
    rw [hcomp, ih]

/-- Unfolding a successful first draw in `nextMany`. -/
theorem nextMany_cons_ok (σ : List Nat → List Nat)
    (σs : List (List Nat → List Nat)) (p : StudentPicker) (s : Student)
    (p1 : StudentPicker) (h : StudentPicker.next σ p = .ok (s, p1)) :
    StudentPicker.nextMany (σ :: σs) p =
      match StudentPicker.nextMany σs p1 with
      | .error e => .error e
      | .ok (out, p2) => .ok (s :: out, p2) := by
  rw [StudentPicker.nextMany, h]

/-- Draws strictly inside a pass (cursor past 0) never reshuffle: they walk
the current bag to its end, reading the students at the stored indices. -/
theorem nextMany_within_pass (σs : List (List Nat → List Nat))
    (st : List Student) (l : List Nat) (c : Nat)
    (hperm : l.Perm (List.range st.length))
    (hc : 0 < c) (hlen : c + σs.length = l.length) :
    StudentPicker.nextMany σs ⟨st, l, c⟩ =
      .ok ((l.drop c).map (fun i => st.getD i defaultStudent),
        ⟨st, l, l.length⟩) := by
  induction σs generalizing c with
  | nil =>
    have hcl : c = l.length := by simpa using hlen
    subst hcl
    simp [StudentPicker.nextMany, List.drop_length]
  | cons σ σs ih =>
    have hclt : c < l.length := by
      simp only [List.length_cons] at hlen
      omega
    have hne : c ≠ l.length := by omega
    have hne0 : c ≠ 0 := by omega
    have hget : l.get? c = some (l.get ⟨c, hclt⟩) := List.get?_eq_get hclt
    have hidx : l.get ⟨c, hclt⟩ < st.length := by
      have hmem : l.get ⟨c, hclt⟩ ∈ l := List.get_mem l c hclt
      exact List.mem_range.mp (hperm.mem_iff.mp hmem)
    have hgets : st.get? (l.get ⟨c, hclt⟩) =
        some (st.get ⟨l.get ⟨c, hclt⟩, hidx⟩) := List.get?_eq_get hidx
    rw [StudentPicker.nextMany, StudentPicker.next]
    simp only [if_neg hne, if_neg hne0, hget, hgets]
    rw [ih (c + 1) (by omega) (by simp only [List.length_cons] at hlen; omega)]
    rw [List.drop_eq_getElem_cons hclt, List.map_cons]
    have hidx' : l[c] < st.length := by
      simpa [List.get_eq_getElem] using hidx
    simp [List.getD_eq_getElem?_getD, List.getElem?_eq_getElem hidx',
      List.get_eq_getElem]

/-- C4: from any pass-start state over a non-empty pool of `N` students —
the freshly constructed picker in particular — the next `N` draws succeed
and return a permutation of the pool (every student exactly once), and the
picker ends in a pass-start state again, so the same holds for every
subsequent shuffle pass. -/
theorem picker_pass_fairness (students : List Student)
    (σs : List (List Nat → List Nat)) (p : StudentPicker)
    (hσ : ∀ σ ∈ σs, ∀ l, (σ l).Perm l)
    (hN : 0 < students.length)
    (hcount : σs.length = students.length)
    (hp : PassStart students p) :
    PassStart students (StudentPicker.new students) ∧
    ∃ out p1, StudentPicker.nextMany σs p = .ok (out, p1) ∧
      out.Perm students ∧ PassStart students p1 := by
  refine ⟨⟨rfl, by simp [StudentPicker.new], Or.inl rfl⟩, ?_⟩
  obtain ⟨st, l, c⟩ := p
  obtain ⟨hst, hperm, hcur⟩ := hp
  simp only at hst hperm hcur
  subst hst
  cases σs with
  | nil =>
    rw [List.length_nil] at hcount
    omega
  | cons σ σs =>
    have hperm1 : (σ l).Perm (List.range st.length) :=
      (hσ σ (by simp) l).trans hperm
    have hslen : (σ l).length = st.length := by
      simpa using hperm1.length_eq
    have h0 : 0 < (σ l).length := by omega
    have hget : (σ l).get? 0 = some ((σ l).get ⟨0, h0⟩) := List.get?_eq_get h0
    have hidx : (σ l).get ⟨0, h0⟩ < st.length := by
      have hmem : (σ l).get ⟨0, h0⟩ ∈ σ l := List.get_mem (σ l) 0 h0
      exact List.mem_range.mp (hperm1.mem_iff.mp hmem)
    have hgets : st.get? ((σ l).get ⟨0, h0⟩) =
        some (st.get ⟨(σ l).get ⟨0, h0⟩, hidx⟩) := List.get?_eq_get hidx
    have hstep : StudentPicker.next σ ⟨st, l, c⟩ =
        .ok (st.get ⟨(σ l).get ⟨0, h0⟩, hidx⟩, ⟨st, σ l, 1⟩) := by
      rcases hcur with h | h
      · subst h
        rw [StudentPicker.next]
        simp only [ite_self, ite_true, if_true, eq_self_iff_true, hget, hgets]
      · subst h
        rw [StudentPicker.next]
        simp only [ite_self, ite_true, if_true, eq_self_iff_true, hget, hgets]
    rw [nextMany_cons_ok σ σs _ _ _ hstep]
    rw [nextMany_within_pass σs st (σ l) 1 hperm1 (by omega)
      (by simp only [List.length_cons] at hcount; omega)]
    refine ⟨_, _, rfl, ?_, rfl, hperm1, Or.inr rfl⟩
    have hout : st.get ⟨(σ l).get ⟨0, h0⟩, hidx⟩ ::
        ((σ l).drop 1).map (fun i => st.getD i defaultStudent) =
        (σ l).map (fun i => st.getD i defaultStudent) := by
      conv_rhs => rw [show σ l = (σ l).drop 0 from rfl,
        List.drop_eq_getElem_cons h0, List.map_cons]
      have hidx' : (σ l)[0] < st.length := by
        simpa [List.get_eq_getElem] using hidx
      simp [List.getD_eq_getElem?_getD, List.getElem?_eq_getElem hidx',
        List.get_eq_getElem]
    rw [hout]
    have := hperm1.map (fun i => st.getD i defaultStudent)
    rw [map_getD_range st defaultStudent] at this
    exact this

/-- A concrete student row used by witnesses and counterexamples. -/
def aliceRow : Student :=
  { db_id := 1, ub_id := "50000001", name := "Alice A", username := "alice",
    first_entered := 5, status_id := 1, last_updated := 5 }

/-- Witness for `picker_pass_fairness`: a singleton pool with the identity
shuffle oracle. -/
theorem picker_pass_fairness_witness :
    (∀ σ ∈ [fun (l : List Nat) => l], ∀ l, (σ l).Perm l) ∧
    0 < [aliceRow].length ∧
    (PassStart [aliceRow] (StudentPicker.new [aliceRow]) ∧
     ∃ out p1, StudentPicker.nextMany [fun l => l]
        (StudentPicker.new [aliceRow]) = .ok (out, p1) ∧
       out.Perm [aliceRow] ∧ PassStart [aliceRow] p1) := by
  have hσ : ∀ σ ∈ [fun (l : List Nat) => l], ∀ l, (σ l).Perm l := by
    intro σ hm l
    simp only [List.mem_singleton] at hm
    subst hm
    exact List.Perm.refl l
  have hps : PassStart [aliceRow] (StudentPicker.new [aliceRow]) :=
    ⟨rfl, by simp [StudentPicker.new], Or.inl rfl⟩
  exact ⟨hσ, by simp,
    picker_pass_fairness [aliceRow] [fun l => l] (StudentPicker.new [aliceRow])
      hσ (by simp) rfl hps⟩

/-- C2 counterexample: drawing from a Fair Picker constructed over the empty
student pool does not surface `EmptyPoolError` — it hits the `panic!` branch
("Could not get next index"), aborting the process. -/
theorem picker_empty_pool_cex :
    StudentPicker.next (fun l => l) (StudentPicker.new []) =
      .error (.panic "Could not get next index") ∧
    StudentPicker.next (fun l => l) (StudentPicker.new []) ≠
      .error .emptyPool := by
  refine ⟨rfl, ?_⟩
  intro h
  rw [show StudentPicker.next (fun l => l) (StudentPicker.new []) =
      .error (.panic "Could not get next index") from rfl] at h
  simpa using h

/-- C2 amended: for every shuffle oracle that permutes its input, drawing
from a Fair Picker over the empty pool panics ("Could not get next index",
a process abort) rather than returning an `EmptyPoolError`. -/
theorem picker_empty_pool_panics (σ : List Nat → List Nat)
    (hσ : ∀ l, (σ l).Perm l) :
    StudentPicker.next σ (StudentPicker.new []) =
      .error (.panic "Could not get next index") := by
  have h0 : σ [] = [] := (hσ []).eq_nil
  simp [StudentPicker.new, StudentPicker.next, h0]

/-- Witness for `picker_empty_pool_panics` at the identity oracle. -/
theorem picker_empty_pool_panics_witness :
    (∀ l : List Nat, ((fun l => l) l).Perm l) ∧
    StudentPicker.next (fun l => l) (StudentPicker.new []) =
      .error (.panic "Could not get next index") :=
  ⟨fun l => List.Perm.refl l,
   picker_empty_pool_panics (fun l => l) (fun l => List.Perm.refl l)⟩

/-- `SELECT db_id FROM statuses WHERE name = $1` as a scalar subquery:
`none` models the SQL NULL of an empty result (`name` is UNIQUE, so `find?`
agrees with the at-most-one-row semantics). -/
def statusIdOf (db : DB) (nm : String) : Option Int :=
  (db.statuses.find? (fun st => st.name == nm)).map (fun st => st.db_id)

/-- The `WHERE st.status_id = (SELECT db_id FROM statuses WHERE name =
'enrolled')` filter of the summarize and student queries; comparison with a
NULL subquery result selects nothing. -/
def isEnrolled (db : DB) (s : Student) : Bool :=
  match statusIdOf db "enrolled" with
  | some i => s.status_id == i
  | none => false

/-- `EventRecorder::record` / the prepared `record_statement`:
`INSERT INTO events (student_id, category_id, satisfactory) VALUES
((SELECT db_id FROM students WHERE name = $1), (SELECT db_id FROM
categories WHERE name = $2), $3)`.  Both `name` columns are UNIQUE, so each
scalar subquery yields at most one row; when a subquery is empty it yields
NULL, and since `events.student_id` and `events.category_id` are declared
`NOT NULL` the INSERT then raises a not-null violation instead of writing 0
rows.  On success exactly one row is inserted and `execute` returns 1. -/
def record (db : DB) (now : Nat) (student_name category_name : String)
    (satisfactory : Bool) : Except PgError (Nat × DB) :=
  match (db.students.find? (fun s => s.name == student_name)).map
          (fun s => s.db_id),
        (db.categories.find? (fun c => c.name == category_name)).map
          (fun c => c.db_id) with
  | some sid, some cid =>
      .ok (1, { db with
        events := db.events ++
          [{ db_id := db.next_id, student_id := sid, category_id := cid,
             first_entered := now, satisfactory := satisfactory }],
        next_id := db.next_id + 1 })
  | _, _ => .error .notNullViolation

/-- First CASE filter of the summarize statement:
`satisfactory AND st.db_id = ev.student_id AND ev.first_entered < $1`. -/
def bucket1 (t1 : Nat) (sid : Int) (e : Event) : Bool :=
  e.satisfactory && e.student_id == sid && decide (e.first_entered < t1)

/-- Second CASE filter: `... AND $1 <= ev.first_entered < $2`. -/
def bucket2 (t1 t2 : Nat) (sid : Int) (e : Event) : Bool :=
  e.satisfactory && e.student_id == sid &&
    decide (t1 ≤ e.first_entered) && decide (e.first_entered < t2)

/-- Third CASE filter: `... AND $2 <= ev.first_entered < $3`. -/
def bucket3 (t2 t3 : Nat) (sid : Int) (e : Event) : Bool :=
  e.satisfactory && e.student_id == sid &&
    decide (t2 ≤ e.first_entered) && decide (e.first_entered < t3)

/-- The prepared `summarize_statement`: a cross join `FROM students st,
events ev` filtered to enrolled students, grouped by `(st.ub_id,
st.username)`, counting the three CASE filters per group.  When the events
table is empty the cross join has no rows, so the query returns no groups
at all — not a zero row per student.  `ub_id` and `username` are UNIQUE, so
each enrolled student is exactly one group; groups are listed in student
order (SQL leaves the order unspecified). -/
def summarizeQuery (db : DB) (t1 t2 t3 : Nat) :
    List (String × Nat × Nat × Nat) :=
  if db.events.isEmpty then []
  else
    (db.students.filter (fun st => isEnrolled db st)).map (fun st =>
      (st.username, db.events.countP (bucket1 t1 st.db_id),
        db.events.countP (bucket2 t1 t2 st.db_id),
        db.events.countP (bucket3 t2 t3 st.db_id)))

/-- Abstraction of chrono `Local.ymd(y, m, d).and_hms(0, 0, 0)`: an
injective, lexicographically monotone encoding of a local calendar date as
a timestamp.  No claim depends on calendar arithmetic, only on which
constants `get_summary` passes to the summarize statement. -/
def localMidnight (y m d : Nat) : Nat := ((y * 12 + m) * 31 + d) * 86400

/-- `EventRecorder::get_summary`: runs the summarize statement, passing the
three boundaries hardcoded in `back.rs` — `Local.ymd(2021, 10, 1)`,
`Local.ymd(2021, 11, 5)`, `Local.ymd(2021, 12, 13)`, each at 00:00:00.  It
takes no boundary arguments from its caller. -/
def get_summary (db : DB) : List (String × Nat × Nat × Nat) :=
  summarizeQuery db (localMidnight 2021 10 1) (localMidnight 2021 11 5)
    (localMidnight 2021 12 13)

/-- A database with the seeded statuses and the `homework` category, one
enrolled student (`aliceRow`) and one satisfactory event on 2021-10-02. -/
def exDb3 : DB :=
  { statuses := [⟨1, "enrolled"⟩, ⟨2, "dropped"⟩]
    categories := [⟨1, "homework", 0⟩]
    students := [aliceRow]
    events := [⟨1, 1, 1, localMidnight 2021 10 2, true⟩]
    summary := []
    summary_last_updated := 0
    next_id := 2 }

/-- C1 (code bug): `record` with a name that resolves to no row returns an
error, not `Ok(0)`.  The empty scalar subquery feeds NULL into a NOT NULL
column, so Postgres raises a not-null violation; the `Ok(0)` validation
path the spec describes (and `front.rs` handles with "are all fields
correct?") is unreachable.  When both names resolve, one row is inserted
and 1 is returned. -/
theorem record_unknown_name_errors :
    record exDb3 100 "NotARealStudent" "homework" true =
      .error .notNullViolation ∧
    record exDb3 100 "Alice A" "nosuchcategory" true =
      .error .notNullViolation ∧
    record exDb3 100 "Alice A" "homework" true =
      .ok (1, { exDb3 with
        events := exDb3.events ++
          [{ db_id := 2, student_id := 1, category_id := 1,
             first_entered := 100, satisfactory := true }],
        next_id := 3 }) :=
  ⟨rfl, rfl, rfl⟩

/-- C3 counterexample: on a concrete database, `get_summary` demonstrably
evaluates the summarize statement at the fixed 2021 boundaries — and the
choice is observable, since other boundaries give a different summary. -/
theorem get_summary_hardcoded_cex :
    get_summary exDb3 =
      summarizeQuery exDb3 (localMidnight 2021 10 1)
        (localMidnight 2021 11 5) (localMidnight 2021 12 13) ∧
    summarizeQuery exDb3 0 0 0 ≠ get_summary exDb3 := by
  refine ⟨rfl, ?_⟩
  have h1 : summarizeQuery exDb3 0 0 0 = [("alice", 0, 0, 0)] := by rfl
  have h2 : get_summary exDb3 = [("alice", 0, 1, 0)] := by rfl
  rw [h1, h2]
  decide

/-- C3 amended: the summarize statement itself is parametrized over
`(t1, t2, t3)`, but the Ledger's `get_summary` supplies the fixed
boundaries 2021-10-01, 2021-11-05 and 2021-12-13 (local midnight) on every
invocation; callers cannot supply boundaries, and the hardcoding is
semantically visible. -/
theorem get_summary_hardcoded (db : DB) :
    get_summary db =
      summarizeQuery db (localMidnight 2021 10 1) (localMidnight 2021 11 5)
        (localMidnight 2021 12 13) ∧
    summarizeQuery exDb3 0 0 0 ≠
      summarizeQuery exDb3 (localMidnight 2021 10 1)
        (localMidnight 2021 11 5) (localMidnight 2021 12 13) := by
  refine ⟨rfl, ?_⟩
  have h1 : summarizeQuery exDb3 0 0 0 = [("alice", 0, 0, 0)] := by rfl
  have h2 : summarizeQuery exDb3 (localMidnight 2021 10 1)
      (localMidnight 2021 11 5) (localMidnight 2021 12 13) =
      [("alice", 0, 1, 0)] := by rfl
  rw [h1, h2]
  decide

/-- Per-event bucket arithmetic: with ordered boundaries the three CASE
filters are pairwise disjoint, and an event at or after `t3` satisfies none
of them. -/
theorem bucket_disjoint (t1 t2 t3 : Nat) (sid : Int) (e : Event)
    (h12 : t1 ≤ t2) (h23 : t2 ≤ t3) :
    (¬(bucket1 t1 sid e = true ∧ bucket2 t1 t2 sid e = true)) ∧
    (¬(bucket1 t1 sid e = true ∧ bucket3 t2 t3 sid e = true)) ∧
    (¬(bucket2 t1 t2 sid e = true ∧ bucket3 t2 t3 sid e = true)) ∧
    (t3 ≤ e.first_entered →
      bucket1 t1 sid e = false ∧ bucket2 t1 t2 sid e = false ∧
        bucket3 t2 t3 sid e = false) := by
  unfold bucket1 bucket2 bucket3
  by_cases hs : e.satisfactory <;> by_cases hm : e.student_id == sid <;>
    simp [hs, hm] <;> omega

/-- The three bucket indicators of one event sum to the indicator of "mine,
satisfactory and before `t3`". -/
theorem bucket_indicator (t1 t2 t3 : Nat) (sid : Int) (e : Event)
    (h12 : t1 ≤ t2) (h23 : t2 ≤ t3) :
    ((if bucket1 t1 sid e = true then 1 else 0) +
     (if bucket2 t1 t2 sid e = true then 1 else 0) +
     (if bucket3 t2 t3 sid e = true then 1 else 0) : Nat) =
    (if (e.satisfactory && e.student_id == sid &&
        decide (e.first_entered < t3)) = true then 1 else 0) := by
  unfold bucket1 bucket2 bucket3
  by_cases hs : e.satisfactory <;> by_cases hm : e.student_id == sid <;>
    simp [hs, hm] <;> split_ifs <;> omega

/-- Summed over any event list, the three bucket counts add up to the count
of satisfactory own events strictly before `t3`: no double counting, and
nothing at or after `t3`. -/
theorem countP_buckets (events : List Event) (t1 t2 t3 : Nat) (sid : Int)
    (h12 : t1 ≤ t2) (h23 : t2 ≤ t3) :
    events.countP (bucket1 t1 sid) + events.countP (bucket2 t1 t2 sid) +
      events.countP (bucket3 t2 t3 sid) =
    events.countP (fun e => e.satisfactory && e.student_id == sid &&
      decide (e.first_entered < t3)) := by
  induction events with
  | nil => simp
  | cons e es ih =>
    simp only [List.countP_cons]
    have hi := bucket_indicator t1 t2 t3 sid e h12 h23
    omega

/-- C6 amended: with ordered boundaries `t1 ≤ t2 ≤ t3` and a non-empty
events table, summarize returns one row per currently-enrolled student,
whose three counts are exactly the `t < t1`, `t1 ≤ t < t2`, `t2 ≤ t < t3`
bucket counts of that student's satisfactory events; the buckets are
pairwise disjoint, no event at or after `t3` falls in any bucket, and the
three counts sum to the student's count of satisfactory events before
`t3`.  (When the events table is empty the grouped cross join yields no
rows at all, which is why non-emptiness must be assumed.) -/
theorem summarize_buckets (db : DB) (t1 t2 t3 : Nat)
    (h12 : t1 ≤ t2) (h23 : t2 ≤ t3) (hne : db.events ≠ []) :
    (summarizeQuery db t1 t2 t3).length =
      (db.students.filter (fun st => isEnrolled db st)).length ∧
    (∀ st ∈ db.students, isEnrolled db st = true →
      (st.username, db.events.countP (bucket1 t1 st.db_id),
        db.events.countP (bucket2 t1 t2 st.db_id),
        db.events.countP (bucket3 t2 t3 st.db_id)) ∈
          summarizeQuery db t1 t2 t3) ∧
    (∀ sid : Int, ∀ e : Event,
      (¬(bucket1 t1 sid e = true ∧ bucket2 t1 t2 sid e = true)) ∧
      (¬(bucket1 t1 sid e = true ∧ bucket3 t2 t3 sid e = true)) ∧
      (¬(bucket2 t1 t2 sid e = true ∧ bucket3 t2 t3 sid e = true)) ∧
      (t3 ≤ e.first_entered → bucket1 t1 sid e = false ∧
        bucket2 t1 t2 sid e = false ∧ bucket3 t2 t3 sid e = false)) ∧
    (∀ sid : Int,
      db.events.countP (bucket1 t1 sid) +
        db.events.countP (bucket2 t1 t2 sid) +
        db.events.countP (bucket3 t2 t3 sid) =
      db.events.countP (fun e => e.satisfactory && e.student_id == sid &&
        decide (e.first_entered < t3))) := by
  have hni : ¬(db.events.isEmpty = true) := by
    simpa [List.isEmpty_iff] using hne
  refine ⟨?_, ?_, fun sid e => bucket_disjoint t1 t2 t3 sid e h12 h23,
    fun sid => countP_buckets db.events t1 t2 t3 sid h12 h23⟩
  · unfold summarizeQuery
    rw [if_neg hni]
    exact List.length_map _ _
  · intro st hst hen
    unfold summarizeQuery
    rw [if_neg hni]
    exact List.mem_map_of_mem _ (List.mem_filter.mpr ⟨hst, hen⟩)

/-- Witness for `summarize_buckets` on `exDb3` with boundaries
`10 ≤ 20 ≤ 30`. -/
theorem summarize_buckets_witness :
    (10 : Nat) ≤ 20 ∧ (20 : Nat) ≤ 30 ∧ exDb3.events ≠ [] ∧
    (summarizeQuery exDb3 10 20 30).length =
      (exDb3.students.filter (fun st => isEnrolled exDb3 st)).length :=
  ⟨by decide, by decide, by decide,
    (summarize_buckets exDb3 10 20 30 (by decide) (by decide)
      (by decide)).1⟩

/-- A database whose events table is empty but with one enrolled student. -/
def exDb6 : DB :=
  { statuses := [⟨1, "enrolled"⟩, ⟨2, "dropped"⟩]
    categories := []
    students := [aliceRow]
    events := []
    summary := []
    summary_last_updated := 0
    next_id := 2 }

/-- C6 counterexample: with an enrolled student but an empty events table
the grouped cross join yields no rows, so summarize (boundaries
`10 ≤ 20 ≤ 30`) returns no row — not three zero counts — for the enrolled
student. -/
theorem summarize_empty_events_cex :
    summarizeQuery exDb6 10 20 30 = [] ∧
    (exDb6.students.filter (fun st => isEnrolled exDb6 st)).length = 1 :=
  ⟨rfl, rfl⟩

/-- The scalar subquery of `update_summary`: `SELECT count(CASE WHEN
satisfactory THEN 1 END) FROM events h WHERE h.student_id = s.student_id`. -/
def satCountOf (events : List Event) (sid : Int) : Nat :=
  (events.filter (fun e => e.student_id == sid)).countP
    (fun e => e.satisfactory)

/-- `update_summary` (`back.rs`): the first UPDATE overwrites every existing
`summary` row's `points` with that student's all-time satisfactory-event
count (no row is inserted); the second UPDATE stamps
`metadata.summary_last_updated` with the current timestamp. -/
def update_summary (db : DB) (now : Nat) : DB :=
  { db with
    summary := db.summary.map (fun r =>
      { r with points := satCountOf db.events r.student_id }),
    summary_last_updated := now }

/-- C7: a summary rebuild overwrites (never increments) the cache: after a
run, the cached row of every student equals that student's all-time
satisfactory-event count (no time bound), the summary-last-updated marker
is stamped, and rebuilding again produces the identical state a single
rebuild would — so repeated runs are safe. -/
theorem update_summary_rebuild (db : DB) (now now2 : Nat)
    (hcover : ∀ st ∈ db.students, ∃ r ∈ db.summary, r.student_id = st.db_id) :
    (∀ st ∈ db.students, ∃ r ∈ (update_summary db now).summary,
      r.student_id = st.db_id ∧
      r.points = ((db.events.filter (fun e => e.satisfactory)).filter
        (fun e => e.student_id == st.db_id)).length) ∧
    update_summary (update_summary db now) now2 = update_summary db now2 ∧
    (update_summary db now).summary_last_updated = now := by
  refine ⟨?_, ?_, rfl⟩
  · intro st hst
    obtain ⟨r, hr, hrid⟩ := hcover st hst
    refine ⟨{ r with points := satCountOf db.events r.student_id },
      List.mem_map_of_mem _ hr, hrid, ?_⟩
    show satCountOf db.events r.student_id = _
    rw [hrid]
    unfold satCountOf
    rw [List.countP_eq_length_filter, List.filter_filter, List.filter_filter]
    apply congrArg List.length
    apply List.filter_congr
    intro e _
    rw [Bool.and_comm]
  · have hmap : ((fun r : SummaryEntry =>
        { r with points := satCountOf db.events r.student_id }) ∘
        (fun r : SummaryEntry =>
          { r with points := satCountOf db.events r.student_id })) =
        fun r : SummaryEntry =>
          { r with points := satCountOf db.events r.student_id } := by
      funext r
      rfl
    unfold update_summary
    dsimp only
    rw [List.map_map, hmap]

/-- A database with one summary row caching stale points for `aliceRow`,
and two events (one satisfactory) for her. -/
def exDb7 : DB :=
  { statuses := [⟨1, "enrolled"⟩, ⟨2, "dropped"⟩]
    categories := [⟨1, "homework", 0⟩]
    students := [aliceRow]
    events := [⟨1, 1, 1, 10, true⟩, ⟨2, 1, 1, 20, false⟩]
    summary := [⟨1, 1, 42⟩]
    summary_last_updated := 0
    next_id := 3 }

/-- Witness for `update_summary_rebuild` on `exDb7`. -/
theorem update_summary_rebuild_witness :
    (∀ st ∈ exDb7.students, ∃ r ∈ exDb7.summary,
      r.student_id = st.db_id) ∧
    (∀ st ∈ exDb7.students, ∃ r ∈ (update_summary exDb7 9).summary,
      r.student_id = st.db_id ∧
      r.points = ((exDb7.events.filter (fun e => e.satisfactory)).filter
        (fun e => e.student_id == st.db_id)).length) ∧
    update_summary (update_summary exDb7 9) 11 = update_summary exDb7 11 ∧
    (update_summary exDb7 9).summary_last_updated = 9 :=
  ⟨by decide, update_summary_rebuild exDb7 9 11 (by decide)⟩

/-- `UPDATE events SET satisfactory = $1 WHERE db_id = $2` (the prepared
`change_statement`): overwrites the flag of the rows with the given id (at
most one; `db_id` is the primary key). -/
def applyChange (db : DB) (sat : Bool) (id : Int) : DB :=
  { db with events := db.events.map (fun e =>
      if e.db_id == id then { e with satisfactory := sat } else e) }

/-- `EventRecorder::change_events`: one execute per `(satisfactory, db_id)`
pair, in input order, propagating the first store error with `?` and then
returning `Ok(())`.  The oracle `ε k` injects the failure of the `k`-th
execute; a failing execute applies nothing. -/
def change_events : DB → List (Bool × Int) → (Nat → Option PgError) →
    Option PgError × DB
  | db, [], _ => (none, db)
  | db, (sat, id) :: rest, ε =>
    match ε 0 with
    | some e => (some e, db)
    | none => change_events (applyChange db sat id) rest (fun i => ε (i + 1))

/-- C9: `change_events` applies the updates one at a time in input order.
If no execute fails, every update is applied (a left fold over the whole
input) and no error is returned; if the `k`-th execute is the first to
fail, exactly the length-`k` input prefix has been applied — nothing is
rolled back, nothing further is applied — and the error is returned. -/
theorem change_events_applies_in_order (db : DB)
    (changes : List (Bool × Int)) (ε : Nat → Option PgError) :
    ((∀ i, i < changes.length → ε i = none) →
      change_events db changes ε =
        (none, changes.foldl (fun d ch => applyChange d ch.1 ch.2) db)) ∧
    (∀ k e, k < changes.length → (∀ i, i < k → ε i = none) →
      ε k = some e →
      change_events db changes ε =
        (some e, (changes.take k).foldl
          (fun d ch => applyChange d ch.1 ch.2) db)) := by
  induction changes generalizing db ε with
  | nil =>
    refine ⟨fun _ => rfl, fun k e hk _ _ => ?_⟩
    simp at hk
  | cons ch rest ih =>
    obtain ⟨sat, id⟩ := ch
    constructor
    · intro hall
      have h0 : ε 0 = none := hall 0 (by simp)
      rw [change_events]
      simp only [h0]
      rw [(ih (applyChange db sat id) (fun i => ε (i + 1))).1
        (fun i hi => hall (i + 1) (by simp only [List.length_cons]; omega))]
      rw [List.foldl_cons]
    · intro k e hk hlt hke
      cases k with
      | zero =>
        rw [change_events]
        simp only [hke]
        rw [List.take_zero]
        rfl
      | succ k =>
        have h0 : ε 0 = none := hlt 0 (by omega)
        rw [change_events]
        simp only [h0]
        rw [(ih (applyChange db sat id) (fun i => ε (i + 1))).2 k e
          (by simp only [List.length_cons] at hk; omega)
          (fun i hi => hlt (i + 1) (by omega)) hke]
        rw [List.take_succ_cons, List.foldl_cons]

/-- Witness for `change_events_applies_in_order`: a one-element change list
run once with no failure and once with a failure at index 0. -/
theorem change_events_witness :
    change_events exDb7 [(false, 1)] (fun _ => none) =
      (none, applyChange exDb7 false 1) ∧
    change_events exDb7 [(false, 1)] (fun _ => some (.storeFailure 7)) =
      (some (.storeFailure 7), exDb7) := by
  constructor
  · have h := (change_events_applies_in_order exDb7 [(false, 1)]
      (fun _ => none)).1 (fun i _ => rfl)
    simpa using h
  · have h := (change_events_applies_in_order exDb7 [(false, 1)]
      (fun _ => some (.storeFailure 7))).2 0 (.storeFailure 7)
      (by simp) (fun i hi => absurd hi (by omega)) rfl
    simpa using h

/-- One row of the retrieve query: `{ev.db_id, c.name, ev.first_entered,
ev.satisfactory}`. -/
structure EventView where
  db_id : Int
  category_name : String
  first_entered : Nat
  satisfactory : Bool
deriving Repr, DecidableEq

def mkEventView (nm : String) (e : Event) : EventView :=
  { db_id := e.db_id, category_name := nm,
    first_entered := e.first_entered, satisfactory := e.satisfactory }

/-- `date_trunc('day', t)`: start of the local day containing `t`
(timestamps in seconds, 86400 seconds per day). -/
def truncDay (t : Nat) : Nat := t / 86400 * 86400

/-- The day filter of the prepared `retrieve_statement`:
`date_trunc('day', ev.first_entered) <= $2 AND
$2 < date_trunc('day', ev.first_entered) + interval '1 day'`,
where `$2 = date.and_hms(0, 0, 0)`. -/
def retrieveDayCond (dts : Nat) (e : Event) : Bool :=
  decide (truncDay e.first_entered ≤ dts) &&
    decide (dts < truncDay e.first_entered + 86400)

/-- `ev.student_id = (SELECT st.db_id FROM students st WHERE st.name = $1)`;
an empty subquery gives NULL, which matches no row (`name` is UNIQUE, so
`find?` agrees with the at-most-one-row semantics). -/
def retrieveStudentCond (sid? : Option Int) (e : Event) : Bool :=
  match sid? with
  | some sid => e.student_id == sid
  | none => false

def insertByTime (v : EventView) : List EventView → List EventView
  | [] => [v]
  | w :: ws =>
    if v.first_entered ≤ w.first_entered then v :: w :: ws
    else w :: insertByTime v ws

/-- `ORDER BY ev.first_entered` (the order among equal timestamps is left
unspecified by SQL; any stable sort is a faithful model). -/
def sortByTime : List EventView → List EventView
  | [] => []
  | v :: vs => insertByTime v (sortByTime vs)

/-- The category name an event's row shows: the unique `categories` row
joined through `ev.category_id = c.db_id`. -/
def categoryNameOf (cats : List Category) (cid : Int) : String :=
  match cats.find? (fun c => c.db_id == cid) with
  | some c => c.name
  | none => ""

/-- `EventRecorder::retrieve_events` / the prepared `retrieve_statement`:
a join `FROM categories c, events ev` filtered by the student subquery, the
day condition and `ev.category_id = c.db_id`, ordered by `first_entered`.
`d` is the calendar day number of the passed `Date<Local>`, so the query
argument is the day's midnight `d * 86400`. -/
def retrieve_events (db : DB) (name : String) (d : Nat) : List EventView :=
  let dts := d * 86400
  let sid? := (db.students.find? (fun s => s.name == name)).map
    (fun s => s.db_id)
  sortByTime
    (db.categories.flatMap (fun c =>
      (db.events.filter (fun e => retrieveStudentCond sid? e &&
        retrieveDayCond dts e && e.category_id == c.db_id)).map
        (fun e => mkEventView c.name e)))

theorem insertByTime_perm (v : EventView) (l : List EventView) :
    (insertByTime v l).Perm (v :: l) := by
  induction l with
  | nil => exact List.Perm.refl _
  | cons w ws ih =>
    rw [insertByTime]
    split
    · exact List.Perm.refl _
    · exact (ih.cons w).trans (List.Perm.swap v w ws)

theorem sortByTime_perm (l : List EventView) : (sortByTime l).Perm l := by
  induction l with
  | nil => exact List.Perm.refl _
  | cons v vs ih =>
    exact (insertByTime_perm v (sortByTime vs)).trans (ih.cons v)

theorem insertByTime_pairwise (v : EventView) (l : List EventView)
    (h : l.Pairwise (fun a b => a.first_entered ≤ b.first_entered)) :
    (insertByTime v l).Pairwise
      (fun a b => a.first_entered ≤ b.first_entered) := by
  induction l with
  | nil => simp [insertByTime]
  | cons w ws ih =>
    rw [List.pairwise_cons] at h
    obtain ⟨hw, hws⟩ := h
    rw [insertByTime]
    split
    · rename_i hle
      rw [List.pairwise_cons]
      refine ⟨?_, List.pairwise_cons.mpr ⟨hw, hws⟩⟩
      intro x hx
      rcases List.mem_cons.mp hx with hx | hx
      · subst hx
        exact hle
      · exact le_trans hle (hw x hx)
    · rename_i hgt
      rw [List.pairwise_cons]
      refine ⟨?_, ih hws⟩
      intro x hx
      rcases List.mem_cons.mp ((insertByTime_perm v ws).mem_iff.mp hx)
        with hx2 | hx2
      · subst hx2
        omega
      · exact hw x hx2

theorem sortByTime_pairwise (l : List EventView) :
    (sortByTime l).Pairwise
      (fun a b => a.first_entered ≤ b.first_entered) := by
  induction l with
  | nil => simp [sortByTime]
  | cons v vs ih => exact insertByTime_pairwise v (sortByTime vs) ih

theorem beq_comm_int (a b : Int) : (a == b) = (b == a) := by
  by_cases h : a = b
  · subst h
    rfl
  · simp [beq_iff_eq, h, Ne.symm h]

/-- The code's `date_trunc`-based day condition, evaluated at a midnight
argument, is exactly the half-open day interval of the spec. -/
theorem retrieveDayCond_eq (d : Nat) (e : Event) :
    retrieveDayCond (d * 86400) e =
      (decide (d * 86400 ≤ e.first_entered) &&
       decide (e.first_entered < (d + 1) * 86400)) := by
  unfold retrieveDayCond truncDay
  have h1 := Nat.div_add_mod e.first_entered 86400
  have h2 : e.first_entered % 86400 < 86400 := Nat.mod_lt _ (by omega)
  rw [← Bool.decide_and, ← Bool.decide_and]
  apply decide_eq_decide.mpr
  constructor
  · rintro ⟨a, b⟩
    omega
  · rintro ⟨a, b⟩
    omega

/-- The category-major join output is, up to permutation, one row per
matching event, labelled with its unique category's name. -/
theorem flatMap_categories_perm (cats : List Category) (events : List Event)
    (p : Event → Bool)
    (hnd : (cats.map (fun c => c.db_id)).Nodup) :
    (cats.flatMap (fun c =>
      (events.filter (fun e => p e && e.category_id == c.db_id)).map
        (fun e => mkEventView c.name e))).Perm
    ((events.filter (fun e =>
        p e && cats.any (fun c => c.db_id == e.category_id))).map
      (fun e => mkEventView (categoryNameOf cats e.category_id) e)) := by
  induction cats with
  | nil => simp
  | cons c cs ih =>
    rw [List.map_cons, List.nodup_cons] at hnd
    obtain ⟨hc, hnd2⟩ := hnd
    rw [List.flatMap_cons]
    have key : (((events.filter (fun e =>
        p e && (c :: cs).any (fun cx => cx.db_id == e.category_id))).filter
          (fun e => e.category_id == c.db_id)).map
            (fun e => mkEventView (categoryNameOf (c :: cs) e.category_id) e) ++
        ((events.filter (fun e =>
          p e && (c :: cs).any (fun cx => cx.db_id == e.category_id))).filter
            (fun e => !(e.category_id == c.db_id))).map
              (fun e => mkEventView (categoryNameOf (c :: cs) e.category_id) e)).Perm
        ((events.filter (fun e =>
          p e && (c :: cs).any (fun cx => cx.db_id == e.category_id))).map
            (fun e => mkEventView (categoryNameOf (c :: cs) e.category_id) e)) := by
      have h := (List.filter_append_perm (fun e => e.category_id == c.db_id)
        (events.filter (fun e =>
          p e && (c :: cs).any (fun cx => cx.db_id == e.category_id)))).map
        (fun e => mkEventView (categoryNameOf (c :: cs) e.category_id) e)
      rwa [List.map_append] at h
    refine List.Perm.trans (List.Perm.append ?_ ?_) key
    · have hA : (events.filter (fun e =>
          p e && (c :: cs).any (fun cx => cx.db_id == e.category_id))).filter
            (fun e => e.category_id == c.db_id) =
          events.filter (fun e => p e && e.category_id == c.db_id) := by
        rw [List.filter_filter]
        apply List.filter_congr
        intro e _
        cases hcc : (e.category_id == c.db_id) with
        | false =>
          simp [hcc]
        | true =>
          have hcc2 : (c.db_id == e.category_id) = true := by
            rw [beq_comm_int]
            exact hcc
          simp [hcc, hcc2, List.any_cons]
      rw [hA]
      have hname : ∀ e ∈ events.filter
          (fun e => p e && e.category_id == c.db_id),
          mkEventView (categoryNameOf (c :: cs) e.category_id) e =
            mkEventView c.name e := by
        intro e he
        have hcc : (e.category_id == c.db_id) = true :=
          (Bool.and_eq_true_iff.mp (List.mem_filter.mp he).2).2
        have hcc2 : (c.db_id == e.category_id) = true := by
          rw [beq_comm_int]
          exact hcc
        unfold categoryNameOf
        rw [List.find?_cons]
        simp [hcc2]
      rw [List.map_congr_left hname]
    · have hB : (events.filter (fun e =>
          p e && (c :: cs).any (fun cx => cx.db_id == e.category_id))).filter
            (fun e => !(e.category_id == c.db_id)) =
          events.filter (fun e =>
            p e && cs.any (fun cx => cx.db_id == e.category_id)) := by
        rw [List.filter_filter]
        apply List.filter_congr
        intro e _
        cases hcc : (e.category_id == c.db_id) with
        | false =>
          have hcc2 : (c.db_id == e.category_id) = false := by
            rw [beq_comm_int]
            exact hcc
          simp [hcc, hcc2, List.any_cons]
        | true =>
          have hany : cs.any (fun cx => cx.db_id == e.category_id) = false := by
            cases hany : cs.any (fun cx => cx.db_id == e.category_id) with
            | false => rfl
            | true =>
              exfalso
              obtain ⟨cx, hcx, hcxeq⟩ := List.any_eq_true.mp hany
              apply hc
              rw [List.mem_map]
              refine ⟨cx, hcx, ?_⟩
              rw [beq_iff_eq.mp hcxeq, beq_iff_eq.mp hcc]
          simp [hcc, hany]
      rw [hB]
      have hname : ∀ e ∈ events.filter (fun e =>
          p e && cs.any (fun cx => cx.db_id == e.category_id)),
          mkEventView (categoryNameOf (c :: cs) e.category_id) e =
            mkEventView (categoryNameOf cs e.category_id) e := by
        intro e he
        have hany : cs.any (fun cx => cx.db_id == e.category_id) = true :=
          (Bool.and_eq_true_iff.mp (List.mem_filter.mp he).2).2
        have hcc2 : (c.db_id == e.category_id) = false := by
          cases hcc2 : (c.db_id == e.category_id) with
          | false => rfl
          | true =>
            exfalso
            obtain ⟨cx, hcx, hcxeq⟩ := List.any_eq_true.mp hany
            apply hc
            rw [List.mem_map]
            refine ⟨cx, hcx, ?_⟩
            rw [beq_iff_eq.mp hcxeq, ← beq_iff_eq.mp hcc2]
        unfold categoryNameOf
        rw [List.find?_cons]
        simp [hcc2]
      rw [List.map_congr_left hname]
      exact ih hnd2

/-- C8: under the schema's foreign-key and primary-key invariants for
categories, `retrieve_events` returns exactly the named student's events
whose `first_entered` lies in the half-open local day
`[d·86400, (d+1)·86400)` — each exactly once, as views carrying their
category's name — and the returned sequence is ordered ascending by
`first_entered`. -/
theorem retrieve_events_day_window (db : DB) (name : String) (d : Nat)
    (hnd : (db.categories.map (fun c => c.db_id)).Nodup)
    (hfk : ∀ e ∈ db.events, ∃ c ∈ db.categories, c.db_id = e.category_id) :
    (retrieve_events db name d).Perm
      ((db.events.filter (fun e =>
        retrieveStudentCond
          ((db.students.find? (fun s => s.name == name)).map
            (fun s => s.db_id)) e &&
        (decide (d * 86400 ≤ e.first_entered) &&
         decide (e.first_entered < (d + 1) * 86400)))).map (fun e =>
          mkEventView (categoryNameOf db.categories e.category_id) e)) ∧
    (retrieve_events db name d).Pairwise
      (fun a b => a.first_entered ≤ b.first_entered) := by
  constructor
  · show (sortByTime _).Perm _
    refine (sortByTime_perm _).trans ?_
    refine (flatMap_categories_perm db.categories db.events
      (fun e => retrieveStudentCond
        ((db.students.find? (fun s => s.name == name)).map
          (fun s => s.db_id)) e && retrieveDayCond (d * 86400) e)
      hnd).trans ?_
    have hfil : db.events.filter (fun e =>
        (retrieveStudentCond
          ((db.students.find? (fun s => s.name == name)).map
            (fun s => s.db_id)) e && retrieveDayCond (d * 86400) e) &&
        db.categories.any (fun c => c.db_id == e.category_id)) =
        db.events.filter (fun e =>
          retrieveStudentCond
            ((db.students.find? (fun s => s.name == name)).map
              (fun s => s.db_id)) e &&
          (decide (d * 86400 ≤ e.first_entered) &&
           decide (e.first_entered < (d + 1) * 86400))) := by
      apply List.filter_congr
      intro e he
      have hany : db.categories.any
          (fun c => c.db_id == e.category_id) = true := by
        rw [List.any_eq_true]
        obtain ⟨c, hcmem, hceq⟩ := hfk e he
        exact ⟨c, hcmem, beq_iff_eq.mpr hceq⟩
      rw [hany, Bool.and_true, retrieveDayCond_eq]
    rw [hfil]
  · show (sortByTime _).Pairwise _
    exact sortByTime_pairwise _

/-- Witness for `retrieve_events_day_window` on `exDb3` at the day of its
single event. -/
theorem retrieve_events_day_window_witness :
    ((exDb3.categories.map (fun c => c.db_id)).Nodup) ∧
    (∀ e ∈ exDb3.events, ∃ c ∈ exDb3.categories,
      c.db_id = e.category_id) ∧
    (retrieve_events exDb3 "Alice A" ((2021 * 12 + 10) * 31 + 2)).Perm
      ((exDb3.events.filter (fun e =>
        retrieveStudentCond
          ((exDb3.students.find? (fun s => s.name == "Alice A")).map
            (fun s => s.db_id)) e &&
        (decide (((2021 * 12 + 10) * 31 + 2) * 86400 ≤ e.first_entered) &&
         decide (e.first_entered <
           ((2021 * 12 + 10) * 31 + 2 + 1) * 86400)))).map (fun e =>
          mkEventView (categoryNameOf exDb3.categories e.category_id) e)) :=
  ⟨by decide, by decide,
    (retrieve_events_day_window exDb3 "Alice A" ((2021 * 12 + 10) * 31 + 2)
      (by decide) (by decide)).1⟩

theorem beq_commutes [BEq α] [LawfulBEq α] (a b : α) : (a == b) = (b == a) := by
  by_cases h : a = b
  · subst h
    rfl
  · simp [beq_iff_eq, h, Ne.symm h]

/-- The row filter of the upsert's `DO UPDATE ... WHERE s.status_id != $3
OR s.name != $2 OR s.username != $4 OR s.username IS NULL` (the schema
declares `username NOT NULL`, so the `IS NULL` disjunct is always false). -/
def needsUpdate (eid : Int) (nm un : String) (s : Student) : Bool :=
  !(s.status_id == eid) || !(s.name == nm) || !(s.username == un)

/-- `INSERT INTO students AS s (ub_id, name, status_id, username) VALUES
($1, $2, $3, $4) ON CONFLICT (ub_id) DO UPDATE SET (name, status_id,
last_updated, username) = ($2, $3, CURRENT_TIMESTAMP, $4) WHERE <differs>`:
inserts a fresh row when no row carries the `ub_id`; otherwise rewrites the
conflicting row, bumping `last_updated`, only when a field differs.  The
second component is the number of rows written (what `execute` returns). -/
def upsertStudent (now : Nat) (eid : Int) (ub nm un : String) (db : DB) :
    DB × Nat :=
  if db.students.any (fun s => s.ub_id == ub) then
    ({ db with students := db.students.map (fun s =>
        if s.ub_id == ub && needsUpdate eid nm un s then
          { s with
              name := nm
              status_id := eid
              username := un
              last_updated := now }
        else s) },
      db.students.countP (fun s => s.ub_id == ub && needsUpdate eid nm un s))
  else
    ({ db with
        students := db.students ++
          [{ db_id := db.next_id, ub_id := ub, name := nm, username := un,
             first_entered := now, status_id := eid, last_updated := now }],
        next_id := db.next_id + 1 },
      1)

/-- `UPDATE students SET (status_id, last_updated) = ($1,
CURRENT_TIMESTAMP) WHERE status_id != $1 AND ub_id = $2` with `$1` the
dropped status id.  The second component is the number of rows written. -/
def dropStudent (now : Nat) (did : Int) (ub : String) (db : DB) : DB × Nat :=
  ({ db with students := db.students.map (fun s =>
      if !(s.status_id == did) && s.ub_id == ub then
        { s with
            status_id := did
            last_updated := now }
      else s) },
    db.students.countP (fun s => !(s.status_id == did) && s.ub_id == ub))

/-- The first loop of the roster branch: for each roster tuple in iterator
order, remove its `ub_id` from the tracking set, then upsert.  The
accumulator carries (database, student rows written, tracking set). -/
def upsertAll (now : Nat) (eid : Int)
    (items : List (String × String × String))
    (acc : DB × Nat × List String) : DB × Nat × List String :=
  items.foldl (fun a it =>
    ((upsertStudent now eid it.1 it.2.1 it.2.2 a.1).1,
     a.2.1 + (upsertStudent now eid it.1 it.2.1 it.2.2 a.1).2,
     a.2.2.filter (fun x => !(x == it.1)))) acc

/-- The second loop: mark each tracking-set survivor dropped. -/
def dropAll (now : Nat) (did : Int) (ubs : List String) (acc : DB × Nat) :
    DB × Nat :=
  ubs.foldl (fun a ub =>
    ((dropStudent now did ub a.1).1,
     a.2 + (dropStudent now did ub a.1).2)) acc

/-- The roster branch of `insert_starting_data` (`back.rs` 342-379) — the
Roster Reconciler's `synchronize`: collect the persisted `ub_id`s, iterate
the roster (upserting and shrinking the tracking set), then drop the
survivors.  `eid` and `did` are the looked-up `enrolled` and `dropped`
status ids.  The returned count is the total number of student rows
written; a roster-iterator panic propagates. -/
def synchronize (roster : Roster) (eid did : Int) (now : Nat) (db : DB) :
    Except String (DB × Nat) :=
  match rosterCollect roster 0 with
  | .error m => .error m
  | .ok items =>
    let p1 := upsertAll now eid items (db, 0, db.students.map (fun s => s.ub_id))
    let p2 := dropAll now did p1.2.2 (p1.1, p1.2.1)
    .ok p2

theorem needsUpdate_eq_false (eid : Int) (nm un : String) (s : Student) :
    needsUpdate eid nm un s = false ↔
      s.status_id = eid ∧ s.name = nm ∧ s.username = un := by
  unfold needsUpdate
  simp [beq_iff_eq]
  tauto

/-- After an upsert, every row carrying the key has the upserted fields,
and some row carries the key. -/
theorem upsertStudent_matched (now : Nat) (eid : Int) (ub nm un : String)
    (db : DB) :
    (∀ s ∈ (upsertStudent now eid ub nm un db).1.students,
      s.ub_id = ub → s.status_id = eid ∧ s.name = nm ∧ s.username = un) ∧
    (∃ s ∈ (upsertStudent now eid ub nm un db).1.students, s.ub_id = ub) := by
  unfold upsertStudent
  cases hany : db.students.any (fun s => s.ub_id == ub) with
  | true =>
    simp only [if_true, if_pos]
    constructor
    · intro s hs hub
      obtain ⟨s0, hs0, hfs⟩ := List.mem_map.mp hs
      by_cases hcond : (s0.ub_id == ub && needsUpdate eid nm un s0) = true
      · rw [if_pos hcond] at hfs
        subst hfs
        exact ⟨rfl, rfl, rfl⟩
      · rw [if_neg hcond] at hfs
        subst hfs
        have hub0 : (s0.ub_id == ub) = true := beq_iff_eq.mpr hub
        have hnu : needsUpdate eid nm un s0 = false := by
          cases hnu : needsUpdate eid nm un s0 with
          | false => rfl
          | true =>
            exact absurd (by rw [hub0, hnu]; rfl) hcond
        exact (needsUpdate_eq_false eid nm un s0).mp hnu
    · obtain ⟨s0, hs0, hub0⟩ := List.any_eq_true.mp hany
      refine ⟨if (s0.ub_id == ub && needsUpdate eid nm un s0) = true then
          { s0 with
              name := nm
              status_id := eid
              username := un
              last_updated := now } else s0,
        List.mem_map_of_mem _ hs0, ?_⟩
      split
      · exact beq_iff_eq.mp hub0
      · exact beq_iff_eq.mp hub0
  | false =>
    simp only [Bool.false_eq_true, if_false]
    constructor
    · intro s hs hub
      rcases List.mem_append.mp hs with hs | hs
      · exact absurd (beq_iff_eq.mpr hub)
          (by simpa using (List.any_eq_false.mp hany s hs))
      · rw [List.mem_singleton] at hs
        subst hs
        exact ⟨rfl, rfl, rfl⟩
    · exact ⟨_, List.mem_append.mpr (Or.inr (List.mem_singleton.mpr rfl)),
        rfl⟩

/-- Rows with a different key are untouched by an upsert. -/
theorem upsertStudent_other (now : Nat) (eid : Int) (ub nm un : String)
    (db : DB) (s : Student) (hne : s.ub_id ≠ ub) :
    s ∈ (upsertStudent now eid ub nm un db).1.students ↔
      s ∈ db.students := by
  unfold upsertStudent
  cases hany : db.students.any (fun x => x.ub_id == ub) with
  | true =>
    simp only [if_true, if_pos]
    constructor
    · intro hs
      obtain ⟨s0, hs0, hfs⟩ := List.mem_map.mp hs
      by_cases hcond : (s0.ub_id == ub && needsUpdate eid nm un s0) = true
      · rw [if_pos hcond] at hfs
        have : s.ub_id = s0.ub_id := by rw [← hfs]
        have hub0 : s0.ub_id = ub :=
          beq_iff_eq.mp (Bool.and_eq_true_iff.mp hcond).1
        exact absurd (this.trans hub0) hne
      · rw [if_neg hcond] at hfs
        subst hfs
        exact hs0
    · intro hs
      have hcond : (s.ub_id == ub && needsUpdate eid nm un s) = false := by
        have : (s.ub_id == ub) = false := by
          cases h : (s.ub_id == ub) with
          | false => rfl
          | true => exact absurd (beq_iff_eq.mp h) hne
        rw [this, Bool.false_and]
      have := List.mem_map_of_mem (fun x =>
        if x.ub_id == ub && needsUpdate eid nm un x then
          { x with
              name := nm
              status_id := eid
              username := un
              last_updated := now }
        else x) hs
      have hnot : ¬((s.ub_id == ub && needsUpdate eid nm un s) = true) := by
        rw [hcond]
        exact Bool.false_ne_true
      dsimp only at this
      rw [if_neg hnot] at this
      exact this
  | false =>
    simp only [Bool.false_eq_true, if_false]
    constructor
    · intro hs
      rcases List.mem_append.mp hs with hs | hs
      · exact hs
      · rw [List.mem_singleton] at hs
        subst hs
        exact absurd rfl hne
    · intro hs
      exact List.mem_append.mpr (Or.inl hs)

/-- When the keyed row already matches, the upsert writes nothing and
changes nothing. -/
theorem upsertStudent_noop (now : Nat) (eid : Int) (ub nm un : String)
    (db : DB)
    (hex : ∃ s ∈ db.students, s.ub_id = ub)
    (hall : ∀ s ∈ db.students, s.ub_id = ub →
      s.status_id = eid ∧ s.name = nm ∧ s.username = un) :
    upsertStudent now eid ub nm un db = (db, 0) := by
  have hcond : ∀ s ∈ db.students,
      (s.ub_id == ub && needsUpdate eid nm un s) = false := by
    intro s hs
    cases hub : (s.ub_id == ub) with
    | false => rw [Bool.false_and]
    | true =>
      rw [Bool.true_and]
      exact (needsUpdate_eq_false eid nm un s).mpr
        (hall s hs (beq_iff_eq.mp hub))
  have hany : db.students.any (fun s => s.ub_id == ub) = true := by
    rw [List.any_eq_true]
    obtain ⟨s, hs, hub⟩ := hex
    exact ⟨s, hs, beq_iff_eq.mpr hub⟩
  unfold upsertStudent
  rw [if_pos hany]
  have hmap : db.students.map (fun s =>
      if s.ub_id == ub && needsUpdate eid nm un s then
        { s with
            name := nm
            status_id := eid
            username := un
            last_updated := now }
      else s) = db.students := by
    have hid : ∀ s ∈ db.students,
        (if s.ub_id == ub && needsUpdate eid nm un s then
          { s with
              name := nm
              status_id := eid
              username := un
              last_updated := now }
        else s) = s := by
      intro s hs
      exact if_neg (by rw [hcond s hs]; exact Bool.false_ne_true)
    rw [List.map_congr_left hid]
    simp
  have hcnt : db.students.countP
      (fun s => s.ub_id == ub && needsUpdate eid nm un s) = 0 :=
    List.countP_eq_zero.mpr
      (fun s hs => by rw [hcond s hs]; exact Bool.false_ne_true)
  rw [hmap, hcnt]

/-- Every row carrying the dropped key ends up dropped. -/
theorem dropStudent_dropped (now : Nat) (did : Int) (ub : String)
    (db : DB) :
    ∀ s ∈ (dropStudent now did ub db).1.students, s.ub_id = ub →
      s.status_id = did := by
  intro s hs hub
  obtain ⟨s0, hs0, hfs⟩ := List.mem_map.mp hs
  by_cases hcond : (!(s0.status_id == did) && s0.ub_id == ub) = true
  · rw [if_pos hcond] at hfs
    subst hfs
    rfl
  · rw [if_neg hcond] at hfs
    subst hfs
    have hub0 : (s0.ub_id == ub) = true := beq_iff_eq.mpr hub
    cases hst : (s0.status_id == did) with
    | true => exact beq_iff_eq.mp hst
    | false => exact absurd (by rw [hst, hub0]; rfl) hcond

/-- Rows with a different key are untouched by a drop. -/
theorem dropStudent_other (now : Nat) (did : Int) (ub : String) (db : DB)
    (s : Student) (hne : s.ub_id ≠ ub) :
    s ∈ (dropStudent now did ub db).1.students ↔ s ∈ db.students := by
  unfold dropStudent
  constructor
  · intro hs
    obtain ⟨s0, hs0, hfs⟩ := List.mem_map.mp hs
    by_cases hcond : (!(s0.status_id == did) && s0.ub_id == ub) = true
    · rw [if_pos hcond] at hfs
      have hub0 : s0.ub_id = ub :=
        beq_iff_eq.mp (Bool.and_eq_true_iff.mp hcond).2
      have : s.ub_id = s0.ub_id := by rw [← hfs]
      exact absurd (this.trans hub0) hne
    · rw [if_neg hcond] at hfs
      subst hfs
      exact hs0
  · intro hs
    have hcond : (!(s.status_id == did) && s.ub_id == ub) = false := by
      have hub : (s.ub_id == ub) = false := by
        cases h : (s.ub_id == ub) with
        | false => rfl
        | true => exact absurd (beq_iff_eq.mp h) hne
      rw [hub, Bool.and_false]
    have := List.mem_map_of_mem (fun x =>
      if !(x.status_id == did) && x.ub_id == ub then
        { x with
            status_id := did
            last_updated := now }
      else x) hs
    have hnot : ¬((!(s.status_id == did) && s.ub_id == ub) = true) := by
      rw [hcond]
      exact Bool.false_ne_true
    dsimp only at this
    rw [if_neg hnot] at this
    exact this

/-- When every row carrying the key is already dropped, the drop writes
nothing and changes nothing. -/
theorem dropStudent_noop (now : Nat) (did : Int) (ub : String) (db : DB)
    (h : ∀ s ∈ db.students, s.ub_id = ub → s.status_id = did) :
    dropStudent now did ub db = (db, 0) := by
  have hcond : ∀ s ∈ db.students,
      (!(s.status_id == did) && s.ub_id == ub) = false := by
    intro s hs
    cases hub : (s.ub_id == ub) with
    | false => exact Bool.and_false _
    | true =>
      have hst : (s.status_id == did) = true :=
        beq_iff_eq.mpr (h s hs (beq_iff_eq.mp hub))
      rw [hst]
      rfl
  unfold dropStudent
  have hmap : db.students.map (fun s =>
      if !(s.status_id == did) && s.ub_id == ub then
        { s with
            status_id := did
            last_updated := now }
      else s) = db.students := by
    have hid : ∀ s ∈ db.students,
        (if !(s.status_id == did) && s.ub_id == ub then
          { s with
              status_id := did
              last_updated := now }
        else s) = s := by
      intro s hs
      exact if_neg (by rw [hcond s hs]; exact Bool.false_ne_true)
    rw [List.map_congr_left hid]
    simp
  have hcnt : db.students.countP
      (fun s => !(s.status_id == did) && s.ub_id == ub) = 0 :=
    List.countP_eq_zero.mpr
      (fun s hs => by rw [hcond s hs]; exact Bool.false_ne_true)
  rw [hmap, hcnt]

/-- The tracking-set bookkeeping: removing a key and then filtering by a
further predicate is one combined filter. -/
theorem filter_tracking (present : List String) (u : String)
    (p : String → Bool) :
    (present.filter (fun x => !(x == u))).filter (fun x => !(p x)) =
      present.filter (fun x => !(u == x || p x)) := by
  rw [List.filter_filter]
  apply List.filter_congr
  intro x _
  rw [Bool.not_or, Bool.and_comm, beq_commutes x u]

/-- After the upsert loop: every roster tuple's key rows carry that tuple's
fields and exist; rows keyed outside the roster are exactly the original
ones; and the tracking set has shrunk by exactly the roster keys.  The
roster must be key-consistent (duplicate keys carry identical fields). -/
theorem upsertAll_establishes (now : Nat) (eid : Int)
    (items : List (String × String × String)) (db : DB) (w0 : Nat)
    (present : List String) :
    (∀ it ∈ items, ∀ it2 ∈ items, it.1 = it2.1 → it = it2) →
    (∀ it ∈ items,
      (∀ s ∈ (upsertAll now eid items (db, w0, present)).1.students,
        s.ub_id = it.1 →
          s.status_id = eid ∧ s.name = it.2.1 ∧ s.username = it.2.2) ∧
      (∃ s ∈ (upsertAll now eid items (db, w0, present)).1.students,
        s.ub_id = it.1)) ∧
    (∀ s : Student, s.ub_id ∉ items.map (fun it => it.1) →
      (s ∈ (upsertAll now eid items (db, w0, present)).1.students ↔
        s ∈ db.students)) ∧
    (upsertAll now eid items (db, w0, present)).2.2 =
      present.filter (fun x => !(items.any (fun it => it.1 == x))) := by
  induction items generalizing db w0 present with
  | nil =>
    intro _
    refine ⟨by simp, fun s _ => Iff.rfl, ?_⟩
    simp [upsertAll]
  | cons it its ih =>
    intro hdup
    have hdup2 : ∀ a ∈ its, ∀ b ∈ its, a.1 = b.1 → a = b :=
      fun a ha b hb => hdup a (by simp [ha]) b (by simp [hb])
    have hstep : upsertAll now eid (it :: its) (db, w0, present) =
        upsertAll now eid its
          ((upsertStudent now eid it.1 it.2.1 it.2.2 db).1,
           w0 + (upsertStudent now eid it.1 it.2.1 it.2.2 db).2,
           present.filter (fun x => !(x == it.1))) := rfl
    obtain ⟨iha, ihb, ihc⟩ :=
      ih (upsertStudent now eid it.1 it.2.1 it.2.2 db).1
        (w0 + (upsertStudent now eid it.1 it.2.1 it.2.2 db).2)
        (present.filter (fun x => !(x == it.1))) hdup2
    refine ⟨?_, ?_, ?_⟩
    · intro jt hjt
      rcases List.mem_cons.mp hjt with hjt | hjt
      · subst hjt
        by_cases hk : jt.1 ∈ its.map (fun j => j.1)
        · obtain ⟨jt2, hjt2, hj1⟩ := List.mem_map.mp hk
          have hj : jt = jt2 :=
            hdup jt (List.mem_cons_self _ _) jt2
              (List.mem_cons_of_mem _ hjt2) hj1.symm
          rw [hstep]
          have h2 := iha jt2 hjt2
          rw [← hj] at h2
          exact h2
        · rw [hstep]
          constructor
          · intro s hs hub
            have hsm : s ∈ (upsertStudent now eid jt.1 jt.2.1 jt.2.2
                db).1.students :=
              (ihb s (by rw [hub]; exact hk)).mp hs
            exact (upsertStudent_matched now eid jt.1 jt.2.1 jt.2.2 db).1
              s hsm hub
          · obtain ⟨s, hs, hub⟩ :=
              (upsertStudent_matched now eid jt.1 jt.2.1 jt.2.2 db).2
            exact ⟨s, (ihb s (by rw [hub]; exact hk)).mpr hs, hub⟩
      · rw [hstep]
        exact iha jt hjt
    · intro s hns
      rw [List.map_cons, List.mem_cons] at hns
      push_neg at hns
      rw [hstep]
      exact (ihb s hns.2).trans
        (upsertStudent_other now eid it.1 it.2.1 it.2.2 db s hns.1)
    · rw [hstep, ihc, filter_tracking]
      apply List.filter_congr
      intro x _
      rw [List.any_cons]

/-- When the database already matches every roster tuple, the upsert loop
writes nothing and changes nothing but the tracking set. -/
theorem upsertAll_noop (now : Nat) (eid : Int)
    (items : List (String × String × String)) (db : DB) (w0 : Nat)
    (present : List String) :
    (∀ it ∈ items,
      (∀ s ∈ db.students, s.ub_id = it.1 →
        s.status_id = eid ∧ s.name = it.2.1 ∧ s.username = it.2.2) ∧
      (∃ s ∈ db.students, s.ub_id = it.1)) →
    upsertAll now eid items (db, w0, present) =
      (db, w0,
        present.filter (fun x => !(items.any (fun it => it.1 == x)))) := by
  induction items generalizing present with
  | nil =>
    intro _
    simp [upsertAll]
  | cons it its ih =>
    intro hm
    have hnoop := upsertStudent_noop now eid it.1 it.2.1 it.2.2 db
      (hm it (List.mem_cons_self _ _)).2 (hm it (List.mem_cons_self _ _)).1
    have hstep : upsertAll now eid (it :: its) (db, w0, present) =
        upsertAll now eid its
          ((upsertStudent now eid it.1 it.2.1 it.2.2 db).1,
           w0 + (upsertStudent now eid it.1 it.2.1 it.2.2 db).2,
           present.filter (fun x => !(x == it.1))) := rfl
    rw [hstep, hnoop]
    show upsertAll now eid its
        (db, w0 + 0, present.filter (fun x => !(x == it.1))) = _
    rw [Nat.add_zero,
      ih (present.filter (fun x => !(x == it.1)))
        (fun jt hjt => hm jt (List.mem_cons_of_mem _ hjt)),
      filter_tracking]
    refine congrArg (fun l => (db, w0, l)) ?_
    apply List.filter_congr
    intro x _
    rw [List.any_cons]

/-- After the drop loop, every row keyed by a processed `ub_id` is dropped;
rows keyed outside the processed set are exactly the original ones. -/
theorem dropAll_status (now : Nat) (did : Int) (ubs : List String)
    (db : DB) (w0 : Nat) :
    (∀ s ∈ (dropAll now did ubs (db, w0)).1.students,
      ∀ ub ∈ ubs, s.ub_id = ub → s.status_id = did) ∧
    (∀ s : Student, s.ub_id ∉ ubs →
      (s ∈ (dropAll now did ubs (db, w0)).1.students ↔
        s ∈ db.students)) := by
  induction ubs generalizing db w0 with
  | nil => exact ⟨by simp, fun s _ => Iff.rfl⟩
  | cons ub ubs ih =>
    have hstep : dropAll now did (ub :: ubs) (db, w0) =
        dropAll now did ubs ((dropStudent now did ub db).1,
          w0 + (dropStudent now did ub db).2) := rfl
    obtain ⟨iha, ihb⟩ := ih (dropStudent now did ub db).1
      (w0 + (dropStudent now did ub db).2)
    constructor
    · intro s hs ub2 hub2 hsub
      rw [hstep] at hs
      rcases List.mem_cons.mp hub2 with h | h
      · subst h
        by_cases hmem : s.ub_id ∈ ubs
        · exact iha s hs s.ub_id hmem rfl
        · have hsm : s ∈ (dropStudent now did ub2 db).1.students :=
            (ihb s hmem).mp hs
          exact dropStudent_dropped now did ub2 db s hsm hsub
      · exact iha s hs ub2 h hsub
    · intro s hns
      rw [List.mem_cons] at hns
      push_neg at hns
      rw [hstep]
      exact (ihb s hns.2).trans
        (dropStudent_other now did ub db s hns.1)

/-- When every row keyed by the processed set is already dropped, the drop
loop writes nothing and changes nothing. -/
theorem dropAll_noop (now : Nat) (did : Int) (ubs : List String)
    (db : DB) (w0 : Nat) :
    (∀ ub ∈ ubs, ∀ s ∈ db.students, s.ub_id = ub → s.status_id = did) →
    dropAll now did ubs (db, w0) = (db, w0) := by
  induction ubs with
  | nil =>
    intro _
    rfl
  | cons ub ubs ih =>
    intro h
    have hstep : dropAll now did (ub :: ubs) (db, w0) =
        dropAll now did ubs ((dropStudent now did ub db).1,
          w0 + (dropStudent now did ub db).2) := rfl
    rw [hstep, dropStudent_noop now did ub db (h ub (List.mem_cons_self _ _))]
    show dropAll now did ubs (db, w0 + 0) = _
    rw [Nat.add_zero]
    exact ih (fun u hu => h u (List.mem_cons_of_mem _ hu))

/-- C5 amended: for every key-consistent roster snapshot — any two entries
sharing an `ub_id` agree on name and username; duplicate-free rosters in
particular — running `synchronize` a second time against the state left by
the first run performs zero student-row writes and returns the database
unchanged. -/
theorem synchronize_idempotent (roster : Roster) (eid did : Int)
    (now now2 : Nat) (db db1 : DB) (w1 : Nat)
    (hdup : ∀ it ∈ zip3 roster.ub_ids roster.names roster.usernames,
      ∀ it2 ∈ zip3 roster.ub_ids roster.names roster.usernames,
      it.1 = it2.1 → it = it2)
    (h1 : synchronize roster eid did now db = .ok (db1, w1)) :
    synchronize roster eid did now2 db1 = .ok (db1, 0) := by
  unfold synchronize at h1 ⊢
  rw [rosterCollect_ok] at h1 ⊢
  dsimp only at h1 ⊢
  obtain ⟨hmatched, hother, hrem⟩ :=
    upsertAll_establishes now eid
      (zip3 roster.ub_ids roster.names roster.usernames) db 0
      (db.students.map (fun s => s.ub_id)) hdup
  obtain ⟨hdrop, hdother⟩ := dropAll_status now did
    (upsertAll now eid (zip3 roster.ub_ids roster.names roster.usernames)
      (db, 0, db.students.map (fun s => s.ub_id))).2.2
    (upsertAll now eid (zip3 roster.ub_ids roster.names roster.usernames)
      (db, 0, db.students.map (fun s => s.ub_id))).1
    (upsertAll now eid (zip3 roster.ub_ids roster.names roster.usernames)
      (db, 0, db.students.map (fun s => s.ub_id))).2.1
  set items := zip3 roster.ub_ids roster.names roster.usernames with hitems
  set present0 := db.students.map (fun s => s.ub_id) with hpres0
  set P := upsertAll now eid items (db, 0, present0) with hPdef
  set D := dropAll now did P.2.2 (P.1, P.2.1) with hDdef
  have h2 : D = (db1, w1) := Except.ok.inj h1
  have hdb1 : D.1 = db1 := by rw [h2]
  have hkeynotrem : ∀ it ∈ items, it.1 ∉ P.2.2 := by
    intro it hit hinrem
    rw [hrem] at hinrem
    have hfl := (List.mem_filter.mp hinrem).2
    have hany : items.any (fun j => j.1 == it.1) = true :=
      List.any_eq_true.mpr ⟨it, hit, beq_iff_eq.mpr rfl⟩
    rw [hany] at hfl
    exact Bool.false_ne_true hfl
  have hmatched1 : ∀ it ∈ items,
      (∀ s ∈ db1.students, s.ub_id = it.1 →
        s.status_id = eid ∧ s.name = it.2.1 ∧ s.username = it.2.2) ∧
      (∃ s ∈ db1.students, s.ub_id = it.1) := by
    intro it hit
    have hnr := hkeynotrem it hit
    constructor
    · intro s hs hub
      rw [← hdb1] at hs
      have hsA : s ∈ P.1.students := (hdother s (by rw [hub]; exact hnr)).mp hs
      exact (hmatched it hit).1 s hsA hub
    · obtain ⟨s, hsA, hub⟩ := (hmatched it hit).2
      refine ⟨s, ?_, hub⟩
      rw [← hdb1]
      exact (hdother s (by rw [hub]; exact hnr)).mpr hsA
  have hinv2 : ∀ s ∈ db1.students,
      s.ub_id ∉ items.map (fun j => j.1) → s.status_id = did := by
    intro s hs hnk
    rw [← hdb1] at hs
    by_cases hrm : s.ub_id ∈ P.2.2
    · exact hdrop s hs s.ub_id hrm rfl
    · exfalso
      apply hrm
      have hsA : s ∈ P.1.students := (hdother s hrm).mp hs
      have hsdb : s ∈ db.students := (hother s hnk).mp hsA
      rw [hrem]
      apply List.mem_filter.mpr
      refine ⟨List.mem_map_of_mem _ hsdb, ?_⟩
      cases hany : items.any (fun j => j.1 == s.ub_id) with
      | false => rfl
      | true =>
        obtain ⟨j, hj, hjeq⟩ := List.any_eq_true.mp hany
        exact absurd (List.mem_map.mpr ⟨j, hj, beq_iff_eq.mp hjeq⟩) hnk
  have hdropnoop : ∀ u ∈ (db1.students.map (fun s => s.ub_id)).filter
      (fun x => !(items.any (fun j => j.1 == x))),
      ∀ s ∈ db1.students, s.ub_id = u → s.status_id = did := by
    intro u hu s hs hub
    have hnk : s.ub_id ∉ items.map (fun j => j.1) := by
      intro hmem
      have hfl := (List.mem_filter.mp hu).2
      obtain ⟨j, hj, hjeq⟩ := List.mem_map.mp hmem
      have hany : items.any (fun jj => jj.1 == u) = true :=
        List.any_eq_true.mpr ⟨j, hj, beq_iff_eq.mpr (hjeq.trans hub)⟩
      rw [hany] at hfl
      exact Bool.false_ne_true hfl
    exact hinv2 s hs hnk
  rw [upsertAll_noop now2 eid items db1 0
    (db1.students.map (fun s => s.ub_id)) hmatched1]
  show Except.ok (dropAll now2 did
    ((db1.students.map (fun s => s.ub_id)).filter
      (fun x => !(items.any (fun j => j.1 == x)))) (db1, 0)) =
    Except.ok (db1, (0 : Nat))
  rw [dropAll_noop now2 did
    ((db1.students.map (fun s => s.ub_id)).filter
      (fun x => !(items.any (fun j => j.1 == x)))) db1 0 hdropnoop]

/-- A roster carrying the same `ub_id` twice with two different names. -/
def exRosterDup : Roster :=
  { ub_ids := ["A", "A"], names := ["n1", "n2"], usernames := ["u", "u"] }

/-- A database with seeded statuses and no students. -/
def exDb5 : DB :=
  { statuses := [⟨1, "enrolled"⟩, ⟨2, "dropped"⟩]
    categories := []
    students := []
    events := []
    summary := []
    summary_last_updated := 0
    next_id := 1 }

/-- The student-row write count of a second synchronize run immediately
following a first one. -/
def secondRunWrites (roster : Roster) (eid did : Int) (db : DB) :
    Except String Nat :=
  match synchronize roster eid did 7 db with
  | .error m => .error m
  | .ok r =>
    match synchronize roster eid did 8 r.1 with
    | .error m => .error m
    | .ok r2 => .ok r2.2

/-- The state the first `synchronize exRosterDup` run leaves behind: the
duplicate's last occurrence wins. -/
def exDb5dup1 : DB :=
  { statuses := [⟨1, "enrolled"⟩, ⟨2, "dropped"⟩]
    categories := []
    students := [{ db_id := 1, ub_id := "A", name := "n2", username := "u",
                   first_entered := 7, status_id := 1, last_updated := 7 }]
    events := []
    summary := []
    summary_last_updated := 0
    next_id := 2 }

/-- The state after the second run: same fields, but `last_updated` was
bumped by the two rewrites. -/
def exDb5dup2 : DB :=
  { statuses := [⟨1, "enrolled"⟩, ⟨2, "dropped"⟩]
    categories := []
    students := [{ db_id := 1, ub_id := "A", name := "n2", username := "u",
                   first_entered := 7, status_id := 1, last_updated := 8 }]
    events := []
    summary := []
    summary_last_updated := 0
    next_id := 2 }

/-- C5 counterexample: a roster whose duplicate `ub_id` carries two
different names is not reconciled idempotently — the second run rewrites
the row twice (write count 2, not 0, and `last_updated` is bumped),
because each pass flips the name to the other entry's value and back. -/
theorem synchronize_dup_roster_cex :
    synchronize exRosterDup 1 2 7 exDb5 = .ok (exDb5dup1, 2) ∧
    synchronize exRosterDup 1 2 8 exDb5dup1 = .ok (exDb5dup2, 2) ∧
    secondRunWrites exRosterDup 1 2 exDb5 = .ok 2 ∧
    secondRunWrites exRosterDup 1 2 exDb5 ≠ .ok 0 := by
  have hrun1 : synchronize exRosterDup 1 2 7 exDb5 = .ok (exDb5dup1, 2) := by
    unfold synchronize
    rw [rosterCollect_ok]
    rfl
  have hrun2 : synchronize exRosterDup 1 2 8 exDb5dup1 =
      .ok (exDb5dup2, 2) := by
    unfold synchronize
    rw [rosterCollect_ok]
    rfl
  have hval : secondRunWrites exRosterDup 1 2 exDb5 = .ok 2 := by
    unfold secondRunWrites
    rw [hrun1]
    dsimp only
    rw [hrun2]
  refine ⟨hrun1, hrun2, hval, ?_⟩
  intro h
  rw [hval] at h
  simpa using h

/-- A duplicate-free one-student roster. -/
def exRoster1 : Roster :=
  { ub_ids := ["A"], names := ["n"], usernames := ["u"] }

/-- The state `synchronize exRoster1 1 2 7 exDb5` leaves behind. -/
def exDb5run1 : DB :=
  { statuses := [⟨1, "enrolled"⟩, ⟨2, "dropped"⟩]
    categories := []
    students := [{ db_id := 1, ub_id := "A", name := "n", username := "u",
                   first_entered := 7, status_id := 1, last_updated := 7 }]
    events := []
    summary := []
    summary_last_updated := 0
    next_id := 2 }

/-- Witness for `synchronize_idempotent`: one fresh student, two runs. -/
theorem synchronize_idempotent_witness :
    synchronize exRoster1 1 2 7 exDb5 = .ok (exDb5run1, 1) ∧
    synchronize exRoster1 1 2 8 exDb5run1 = .ok (exDb5run1, 0) := by
  have h1 : synchronize exRoster1 1 2 7 exDb5 = .ok (exDb5run1, 1) := by
    unfold synchronize
    rw [rosterCollect_ok]
    rfl
  refine ⟨h1, synchronize_idempotent exRoster1 1 2 7 8 exDb5 exDb5run1 1
    ?_ h1⟩
  rw [show zip3 exRoster1.ub_ids exRoster1.names exRoster1.usernames =
    [("A", "n", "u")] from rfl]
  decide

end Participation
